import Mathlib

/-!
Verification of the derived-table pipeline pattern of the `analysis-tutorials`
repository (files `o2at-1/o2at-skimming.cxx` and `o2at-1/o2at-h3-1-v0example.cxx`).

The repository consists of analysis tasks built on the external ALICE O2
framework.  The task bodies (the candidate loops, the decay-type selection,
the histogram fills, the workflow registration) are embedded here directly
from the source.  The framework facilities the tasks call into (the columnar
table writer, the row filter engine, the stage graph builder, the index-column
resolution) are not part of the repository; they are modelled from the
specification, and each such definition carries a doc comment saying so.
-/

/-- Modelled from the spec: the error kinds of §7 (`SchemaError`, `OutOfRange`,
`DanglingReference`, `DuplicateTableError`, `WriterClosed`). -/
inductive PErr where
  | schemaError
  | outOfRange
  | danglingReference
  | duplicateTableError
  | writerClosed
deriving DecidableEq, Repr

/-- Modelled from the spec: the column value types of §3 ({int64, float64,
boolean}); float64 is modelled by ℚ, which represents every concrete value the
examples use exactly. -/
inductive ColType where
  | int
  | float
  | bool
deriving DecidableEq, Repr

/-- Modelled from the spec: a single cell value of a column (§3). -/
inductive Val where
  | vInt (n : Int)
  | vFloat (q : ℚ)
  | vBool (b : Bool)
deriving DecidableEq, Repr

/-- Modelled from the spec: a value matches a declared column type. -/
def Val.hasType : Val → ColType → Bool
  | .vInt _, .int => true
  | .vFloat _, .float => true
  | .vBool _, .bool => true
  | _, _ => false

/-- Modelled from the spec: a Table (§3) is an ordered set of columns sharing a
row count, stored row-major; `schema` is the ordered (name, type) list and
`rows` the positionally aligned tuples. -/
structure Table where
  schema : List (String × ColType)
  rows : List (List Val)
deriving DecidableEq, Repr

/-- Row count of a table (§4.1 `rowCount`). -/
def Table.rowCount (t : Table) : ℕ := t.rows.length

/-- Modelled from the spec: a tuple is valid against a Schema when its arity and
per-position types match (§4.4). -/
def validRow (s : List (String × ColType)) (t : List Val) : Bool :=
  t.length == s.length && (List.zip t s).all fun p => p.1.hasType p.2.2

/-- Modelled from the spec: the Table Writer / Builder of §4.4, holding the
declared Schema, the accumulated rows, and the frozen flag (named
`TableWriter` because `Writer` already exists in the ambient library). -/
structure TableWriter where
  schema : List (String × ColType)
  rows : List (List Val)
  closed : Bool
deriving DecidableEq, Repr

/-- Modelled from the spec: a fresh Writer for a Schema (§4.4 construction). -/
def TableWriter.init (s : List (String × ColType)) : TableWriter := ⟨s, [], false⟩

/-- Modelled from the spec: `append` validates the tuple's arity and
per-position types against the Schema, failing with `SchemaError` on mismatch
and with `WriterClosed` after `finalize` (§4.4). -/
def TableWriter.append (w : TableWriter) (t : List Val) : Except PErr TableWriter :=
  if w.closed then .error .writerClosed
  else if validRow w.schema t then .ok ⟨w.schema, w.rows ++ [t], false⟩
  else .error .schemaError

/-- Modelled from the spec: state-passing view of `append` — on failure the
Writer state is left unchanged (§4.4, failed appends are atomic). -/
def TableWriter.appendSt (w : TableWriter) (t : List Val) : TableWriter × Option PErr :=
  match w.append t with
  | .ok w' => (w', none)
  | .error e => (w, some e)

/-- Appending a whole sequence of tuples in order, stopping at the first
failure. -/
def TableWriter.appendAll : TableWriter → List (List Val) → Except PErr TableWriter
  | w, [] => .ok w
  | w, t :: ts =>
    match w.append t with
    | .ok w' => w'.appendAll ts
    | .error e => .error e

/-- Modelled from the spec: `finalize` freezes the accumulated rows into an
immutable Table whose row count equals the number of successful appends
(§4.4). -/
def TableWriter.finalize (w : TableWriter) : Except PErr Table :=
  if w.closed then .error .writerClosed
  else .ok ⟨w.schema, w.rows⟩

/-- Modelled from the spec: the Filtered View of §3/§4.2, built by scanning the
rows in order and recording the positions (starting at offset `i`) whose row
satisfies the predicate. -/
def filteredViewAux {α : Type} (P : α → Bool) : List α → ℕ → List ℕ
  | [], _ => []
  | x :: xs, i =>
    if P x then i :: filteredViewAux P xs (i + 1) else filteredViewAux P xs (i + 1)

/-- Modelled from the spec: the Filtered View of a Table under a predicate —
the ordered sequence of row positions for which the predicate evaluates true
(§4.2). -/
def filteredView {α : Type} (P : α → Bool) (T : List α) : List ℕ :=
  filteredViewAux P T 0

/-- Modelled from the spec: a pipeline stage (§4.5), declaring its name, its
input Table identities and optionally one output Table identity; a stage with
no output is a terminal consumer. -/
structure Stage where
  name : String
  inputs : List String
  output : Option String
deriving DecidableEq, Repr

/-- Modelled from the spec: build-time registration of the stages' output Table
identities (§4.5); registering an identity that is already present fails with
`DuplicateTableError`. -/
def registerOutputs : List Stage → List String → Except PErr (List String)
  | [], acc => .ok acc
  | s :: rest, acc =>
    match s.output with
    | none => registerOutputs rest acc
    | some t => if t ∈ acc then .error .duplicateTableError else registerOutputs rest (t :: acc)

/-- Modelled from the spec: building the stage graph (§4.5) checks the output
identities of all stages before anything runs, rejecting duplicates with
`DuplicateTableError`. -/
def buildStageGraph (ss : List Stage) : Except PErr (List Stage) :=
  match registerOutputs ss [] with
  | .ok _ => .ok ss
  | .error e => .error e

/-- Modelled from the spec: running a pipeline first builds the stage graph and
only then executes the stages in declaration order (§4.5); the result on
success is the list of executed stage names, and on a build error no stage has
executed. -/
def runPipeline (ss : List Stage) : Except PErr (List String) :=
  match buildStageGraph ss with
  | .ok g => .ok (g.map Stage.name)
  | .error e => .error e

/-- `ReadHFCandidates` (o2at-skimming.cxx, STEP 2): reads the 2-prong
candidate table, produces no table. -/
def ReadHFCandidates.stage : Stage :=
  ⟨"ReadHFCandidates", ["HfCandProng2"], none⟩

/-- `ProduceDerivedTable` (o2at-skimming.cxx, STEP 3): reads candidates and
tracks, produces `MyTable` via `Produces<aod::MyTable>`. -/
def ProduceDerivedTable.stage : Stage :=
  ⟨"ProduceDerivedTable", ["HfCandProng2", "Tracks"], some "MyTable"⟩

/-- `ProduceDerivedTableFilter` (o2at-skimming.cxx, STEP 4): reads filtered
candidates and tracks, also produces `MyTable` via `Produces<aod::MyTable>`. -/
def ProduceDerivedTableFilter.stage : Stage :=
  ⟨"ProduceDerivedTableFilter", ["HfCandProng2", "Tracks"], some "MyTable"⟩

/-- `ReadDerivedTable` (o2at-skimming.cxx, STEP 5): reads `MyTable`, fills
histograms, produces no table. -/
def ReadDerivedTable.stage : Stage :=
  ⟨"ReadDerivedTable", ["MyTable"], none⟩

/-- The workflow returned by `defineDataProcessing` in o2at-skimming.cxx
(lines 175-182): the five stages in declaration order, with `ReadDerivedTable`
registered twice. -/
def defineDataProcessing : List Stage :=
  [ReadHFCandidates.stage,
   ProduceDerivedTable.stage,
   ProduceDerivedTableFilter.stage,
   ReadDerivedTable.stage,
   ReadDerivedTable.stage]

/-- A row of the `aod::Tracks` table, reduced to the one accessor the tasks
use: `collisionId()` (o2at-skimming.cxx lines 110-112). -/
structure Track where
  collisionId : Int
deriving DecidableEq, Repr, Inhabited

/-- A row of the `aod::HfCandProng2` table, reduced to the accessors the tasks
use: `hfflag()`, `px`/`py` (read by the pt filter expression), `pt()`,
`cpa()`, and the `index0` index-column value referencing `aod::Tracks`.
`pt` is carried as its own field (in the framework it is a derived column);
the concrete inputs used below keep it consistent with `px`/`py`. -/
structure Cand where
  hfflag : ℕ
  px : ℚ
  py : ℚ
  pt : ℚ
  cpa : ℚ
  index0 : ℕ
deriving DecidableEq, Repr

instance : Inhabited Cand := ⟨⟨0, 0, 0, 0, 0, 0⟩⟩

/-- `TESTBIT(v, b)` of the O2 CommonConstants helpers: tests bit `b` of `v`. -/
def TESTBIT (v : ℕ) (b : ℕ) : Bool := Nat.testBit v b

/-- The `aod::hf_cand_prong2::DecayType::D0ToPiK` enumerator (first enumerator
of the external framework's DecayType enum; the development only ever asks
whether this bit is set, so the numeric value is irrelevant to the claims). -/
def DecayType.D0ToPiK : ℕ := 0

/-- A row of the derived table `aod::MyTable` declared in o2at-skimming.cxx
lines 45-50: columns InvMassD0, InvMassD0bar, Pt, CosinePointing,
CollisionId. -/
structure MyTableRow where
  invMassD0 : ℚ
  invMassD0bar : ℚ
  pt : ℚ
  cosinePointing : ℚ
  collisionId : Int
deriving DecidableEq, Repr

/-- The Schema of `aod::MyTable` as declared by `DECLARE_SOA_TABLE` in
o2at-skimming.cxx lines 45-50: four float columns and one index (int)
column. -/
def myTableSchema : List (String × ColType) :=
  [("InvMassD0", .float), ("InvMassD0bar", .float), ("Pt", .float),
   ("CosinePointing", .float), ("CollisionId", .int)]

/-- A `MyTableRow` as the tuple of cell values appended by
`tableWithDzeroCandidates(...)` (o2at-skimming.cxx line 112/147). -/
def MyTableRow.toVals (r : MyTableRow) : List Val :=
  [.vFloat r.invMassD0, .vFloat r.invMassD0bar, .vFloat r.pt,
   .vFloat r.cosinePointing, .vInt r.collisionId]

/-- Modelled from the spec: the framework's `index0_as<aod::Tracks>()` index
resolution (o2at-skimming.cxx line 110/145 is its caller).  Per §4.3/§7 it
fails with `DanglingReference` if the stored row position is outside the
referenced Table's bounds, and otherwise yields the referenced row. -/
def Cand.index0_as (c : Cand) (tracks : List Track) : Except PErr Track :=
  match tracks.get? c.index0 with
  | some t => .ok t
  | none => .error .danglingReference

/-- `ProduceDerivedTable::process` (o2at-skimming.cxx lines 88-114): loop over
the 2-prong candidates; skip candidates whose `hfflag` lacks the D0ToPiK bit;
for the others resolve the `index0` daughter track and append
`(InvMassD0(cand), InvMassD0bar(cand), cand.pt(), cand.cpa(),
dauTrack.collisionId())` to the derived table.  The external mass functions
`InvMassD0` / `InvMassD0bar` are passed in as the pure functions `mD0` /
`mD0bar`; the appended rows are returned in loop order. -/
def ProduceDerivedTable.process (mD0 mD0bar : Cand → ℚ) :
    List Cand → List Track → Except PErr (List MyTableRow)
  | [], _ => .ok []
  | c :: rest, tracks =>
    if TESTBIT c.hfflag DecayType.D0ToPiK then
      match c.index0_as tracks with
      | .ok dauTrack =>
        match ProduceDerivedTable.process mD0 mD0bar rest tracks with
        | .ok rows =>
          .ok (⟨mD0 c, mD0bar c, c.pt, c.cpa, dauTrack.collisionId⟩ :: rows)
        | .error e => .error e
      | .error e => .error e
    else
      ProduceDerivedTable.process mD0 mD0bar rest tracks

/-- `ProduceDerivedTableFilter::ptFilter` (o2at-skimming.cxx line 122):
`std::sqrt(px*px + py*py) > 4.`; stated over ℚ in the equivalent squared form
`px*px + py*py > 16` (see `ptFilter_matches_sqrt` below). -/
def ProduceDerivedTableFilter.ptFilter (c : Cand) : Bool :=
  decide (16 < c.px * c.px + c.py * c.py)

/-- `ProduceDerivedTableFilter::process` (o2at-skimming.cxx lines 124-149):
the loop body is line-for-line identical to `ProduceDerivedTable::process`
(lines 92-113); the only difference is that the framework hands it the
filtered candidate table. -/
def ProduceDerivedTableFilter.process (mD0 mD0bar : Cand → ℚ)
    (cand2Prongs : List Cand) (tracks : List Track) :
    Except PErr (List MyTableRow) :=
  ProduceDerivedTable.process mD0 mD0bar cand2Prongs tracks

/-- Writing the produced rows through the Table Writer declared by
`Produces<aod::MyTable>`: every row is appended in order to a fresh Writer for
the `MyTable` schema, and the Writer is finalized into the derived Table. -/
def writeMyTable (rows : List MyTableRow) : Except PErr Table :=
  match (TableWriter.init myTableSchema).appendAll (rows.map MyTableRow.toVals) with
  | .ok w => w.finalize
  | .error e => .error e

/-- One full run of the `ProduceDerivedTable` stage: compute the rows from the
immutable inputs, then write them into the derived `MyTable`. -/
def ProduceDerivedTable.run (mD0 mD0bar : Cand → ℚ)
    (cand2Prongs : List Cand) (tracks : List Track) : Except PErr Table :=
  match ProduceDerivedTable.process mD0 mD0bar cand2Prongs tracks with
  | .ok rows => writeMyTable rows
  | .error e => .error e

/-- One full run of the `ProduceDerivedTableFilter` stage: the framework
materializes the Filtered View of the raw candidate table under `ptFilter`
(the positions whose row passes, §4.2) and hands those rows to the task's
`process`, whose output is written into the derived `MyTable`. -/
def ProduceDerivedTableFilter.run (mD0 mD0bar : Cand → ℚ)
    (cand2Prongs : List Cand) (tracks : List Track) : Except PErr Table :=
  match ProduceDerivedTableFilter.process mD0 mD0bar
      ((filteredView ProduceDerivedTableFilter.ptFilter cand2Prongs).map
        (fun i => cand2Prongs.getD i default)) tracks with
  | .ok rows => writeMyTable rows
  | .error e => .error e

/-- A row of `soa::Join<aod::Collisions, aod::EvSels>` reduced to the two
accessors `vzeroexample::process` uses: `sel8()` and `posZ()`
(o2at-h3-1-v0example.cxx lines 47-52). -/
structure Collision where
  sel8 : Bool
  posZ : ℚ
deriving DecidableEq, Repr

/-- A row of `aod::V0Datas` reduced to the one accessor used:
`mK0Short()` (o2at-h3-1-v0example.cxx line 54). -/
structure V0Data where
  mK0Short : ℚ
deriving DecidableEq, Repr

/-- One histogram-fill side effect of the `vzeroexample` task: which histogram
was filled and with which value. -/
inductive FillEvt where
  | hVertexZ (z : ℚ)
  | hMassK0Short (m : ℚ)
deriving DecidableEq, Repr

/-- `vzeroexample::process` (o2at-h3-1-v0example.cxx lines 44-56): if the
collision fails `sel8()` return immediately; otherwise fill `hVertexZ` with
`posZ()` and then fill `hMassK0Short` with `mK0Short()` for each V0, in order.
The histogram registry is an external sink, so the embedding returns the list
of fills the body performs. -/
def vzeroexample.process (collision : Collision) (V0s : List V0Data) :
    List FillEvt :=
  if !collision.sel8 then []
  else
    FillEvt.hVertexZ collision.posZ ::
      V0s.map (fun v => FillEvt.hMassK0Short v.mK0Short)

/-- Concrete raw candidate rows realizing the spec's §8 ordering scenario:
pT values {1.0, 5.0, 9.0} (with py = 0 so that pT = px), all tagged with the
D0ToPiK bit and all referencing track 0. -/
def scenarioCands : List Cand :=
  [⟨1, 1, 0, 1, 1, 0⟩, ⟨1, 5, 0, 5, 1, 0⟩, ⟨1, 9, 0, 9, 1, 0⟩]

/-- The referenced track table for the concrete scenarios: one track whose
collision id is 7. -/
def scenarioTracks : List Track := [⟨7⟩]

/-- A concrete choice of external invariant-mass function used when a scenario
needs one. -/
def scenarioMass (c : Cand) : ℚ := c.pt

/-- A candidate tagged D0ToPiK whose stored `index0` (3) lies outside
`scenarioTracks` (length 1). -/
def danglingCand : Cand := ⟨1, 5, 0, 5, 1, 3⟩

/-- Two concrete tuples valid against the `MyTable` schema. -/
def sampleRows : List (List Val) :=
  [[.vFloat 1, .vFloat 2, .vFloat 3, .vFloat 4, .vInt 5],
   [.vFloat 6, .vFloat 7, .vFloat 8, .vFloat 9, .vInt 10]]

theorem filteredViewAux_cons_pos {α : Type} {P : α → Bool} {x : α}
    (xs : List α) (i : ℕ) (hP : P x = true) :
    filteredViewAux P (x :: xs) i = i :: filteredViewAux P xs (i + 1) := by
  simp [filteredViewAux, hP]

theorem filteredViewAux_cons_neg {α : Type} {P : α → Bool} {x : α}
    (xs : List α) (i : ℕ) (hP : P x = false) :
    filteredViewAux P (x :: xs) i = filteredViewAux P xs (i + 1) := by
  simp [filteredViewAux, hP]

theorem mem_filteredViewAux {α : Type} (P : α → Bool) :
    ∀ (xs : List α) (i j : ℕ),
      j ∈ filteredViewAux P xs i ↔
        ∃ k, ∃ h : k < xs.length, j = i + k ∧ P (xs.get ⟨k, h⟩) = true := by
  intro xs
  induction xs with
  | nil => intro i j; simp [filteredViewAux]
  | cons x xs ih =>
    intro i j
    cases hP : P x with
    | true =>
      rw [filteredViewAux_cons_pos xs i hP, List.mem_cons, ih]
      constructor
      · rintro (rfl | ⟨k, hk, rfl, hPk⟩)
        · exact ⟨0, by simp, by simp, by simpa using hP⟩
        · exact ⟨k + 1, by simpa using hk, by omega, by simpa using hPk⟩
      · rintro ⟨k, hk, rfl, hPk⟩
        cases k with
        | zero => left; simp
        | succ k =>
          right
          exact ⟨k, by simpa using hk, by omega, by simpa using hPk⟩
    | false =>
      rw [filteredViewAux_cons_neg xs i hP, ih]
      constructor
      · rintro ⟨k, hk, rfl, hPk⟩
        exact ⟨k + 1, by simpa using hk, by omega, by simpa using hPk⟩
      · rintro ⟨k, hk, rfl, hPk⟩
        cases k with
        | zero => simp at hPk; simp [hPk] at hP
        | succ k =>
          exact ⟨k, by simpa using hk, by omega, by simpa using hPk⟩

theorem filteredViewAux_lower_bound {α : Type} (P : α → Bool)
    (xs : List α) (i j : ℕ) (h : j ∈ filteredViewAux P xs i) : i ≤ j := by
  rcases (mem_filteredViewAux P xs i j).1 h with ⟨k, _, rfl, _⟩
  omega

theorem filteredViewAux_pairwise {α : Type} (P : α → Bool) :
    ∀ (xs : List α) (i : ℕ), (filteredViewAux P xs i).Pairwise (· < ·) := by
  intro xs
  induction xs with
  | nil => intro i; simp [filteredViewAux]
  | cons x xs ih =>
    intro i
    cases hP : P x with
    | true =>
      rw [filteredViewAux_cons_pos xs i hP]
      refine List.pairwise_cons.2 ⟨fun j hj => ?_, ih (i + 1)⟩
      have := filteredViewAux_lower_bound P xs (i + 1) j hj
      omega
    | false =>
      rw [filteredViewAux_cons_neg xs i hP]
      exact ih (i + 1)

theorem filteredViewAux_length_le {α : Type} (P : α → Bool) :
    ∀ (xs : List α) (i : ℕ), (filteredViewAux P xs i).length ≤ xs.length := by
  intro xs
  induction xs with
  | nil => intro i; simp [filteredViewAux]
  | cons x xs ih =>
    intro i
    cases hP : P x with
    | true =>
      rw [filteredViewAux_cons_pos xs i hP]
      simpa using ih (i + 1)
    | false =>
      rw [filteredViewAux_cons_neg xs i hP]
      exact Nat.le_succ_of_le (ih (i + 1))

theorem registerOutputs_error_of_mem (ss : List Stage) :
    ∀ (acc : List String) (t : String), t ∈ acc →
      (∃ s ∈ ss, s.output = some t) →
      registerOutputs ss acc = .error .duplicateTableError := by
  induction ss with
  | nil => rintro acc t _ ⟨s, hs, _⟩; exact absurd hs (List.not_mem_nil s)
  | cons s rest ih =>
    rintro acc t hacc ⟨s', hs', hout⟩
    rcases List.mem_cons.1 hs' with rfl | hrest
    · simp only [registerOutputs, hout]
      rw [if_pos hacc]
    · cases hso : s.output with
      | none => simp only [registerOutputs, hso]; exact ih acc t hacc ⟨s', hrest, hout⟩
      | some u =>
        simp only [registerOutputs, hso]
        by_cases hu : u ∈ acc
        · rw [if_pos hu]
        · rw [if_neg hu]
          exact ih (u :: acc) t (List.mem_cons_of_mem u hacc) ⟨s', hrest, hout⟩

theorem registerOutputs_error_of_dup (ss : List Stage) :
    ∀ (acc : List String) (i j : ℕ) (hj : j < ss.length) (hij : i < j) (t : String),
      (ss.get ⟨i, hij.trans hj⟩).output = some t →
      (ss.get ⟨j, hj⟩).output = some t →
      registerOutputs ss acc = .error .duplicateTableError := by
  induction ss with
  | nil => intro acc i j hj; exact absurd hj (Nat.not_lt_zero j)
  | cons s rest ih =>
    intro acc i j hj hij t hi hjout
    cases j with
    | zero => exact absurd hij (Nat.not_lt_zero i)
    | succ j' =>
      have hj' : j' < rest.length := Nat.lt_of_succ_lt_succ hj
      have hjout' : (rest.get ⟨j', hj'⟩).output = some t := hjout
      cases i with
      | zero =>
        have hs : s.output = some t := hi
        simp only [registerOutputs, hs]
        by_cases ht : t ∈ acc
        · rw [if_pos ht]
        · rw [if_neg ht]
          exact registerOutputs_error_of_mem rest (t :: acc) t (List.mem_cons_self t acc)
            ⟨rest.get ⟨j', hj'⟩, List.get_mem rest j' hj', hjout'⟩
      | succ i' =>
        have hij' : i' < j' := Nat.lt_of_succ_lt_succ hij
        have hi' : (rest.get ⟨i', hij'.trans hj'⟩).output = some t := hi
        cases hso : s.output with
        | none => simp only [registerOutputs, hso]; exact ih acc i' j' hj' hij' t hi' hjout'
        | some u =>
          simp only [registerOutputs, hso]
          by_cases hu : u ∈ acc
          · rw [if_pos hu]
          · rw [if_neg hu]
            exact ih (u :: acc) i' j' hj' hij' t hi' hjout'

theorem registerOutputs_ok_of_nodup (ss : List Stage) :
    ∀ (acc : List String),
      (ss.filterMap Stage.output).Nodup →
      (∀ t ∈ ss.filterMap Stage.output, t ∉ acc) →
      ∃ l, registerOutputs ss acc = .ok l := by
  induction ss with
  | nil => intro acc _ _; exact ⟨acc, rfl⟩
  | cons s rest ih =>
    intro acc hnd hdisj
    cases hso : s.output with
    | none =>
      simp only [registerOutputs, hso]
      refine ih acc ?_ ?_
      · simpa [List.filterMap_cons, hso] using hnd
      · intro t ht
        exact hdisj t (by simpa [List.filterMap_cons, hso] using ht)
    | some u =>
      have hfm : (s :: rest).filterMap Stage.output = u :: rest.filterMap Stage.output := by
        simp [List.filterMap_cons, hso]
      rw [hfm] at hnd hdisj
      have hu_acc : u ∉ acc := hdisj u (List.mem_cons_self u _)
      simp only [registerOutputs, hso]
      rw [if_neg hu_acc]
      refine ih (u :: acc) (List.Nodup.of_cons hnd) ?_
      intro t ht
      have htu : t ≠ u := by
        intro h
        subst h
        exact (List.nodup_cons.1 hnd).1 ht
      intro hmem
      rcases List.mem_cons.1 hmem with h | h
      · exact htu h
      · exact hdisj t (List.mem_cons_of_mem u ht) h

/-- The squared form used by `ProduceDerivedTableFilter.ptFilter` agrees with
the source's `std::sqrt(px*px + py*py) > 4.` exactly. -/
theorem ptFilter_matches_sqrt (c : Cand) :
    ProduceDerivedTableFilter.ptFilter c = true ↔
      4 < Real.sqrt ((c.px * c.px + c.py * c.py : ℚ) : ℝ) := by
  rw [Real.lt_sqrt (by norm_num : (0 : ℝ) ≤ 4)]
  rw [ProduceDerivedTableFilter.ptFilter, decide_eq_true_iff]
  constructor
  · intro h
    have : (16 : ℝ) < ((c.px * c.px + c.py * c.py : ℚ) : ℝ) := by exact_mod_cast h
    nlinarith
  · intro h
    have : (16 : ℝ) < ((c.px * c.px + c.py * c.py : ℚ) : ℝ) := by nlinarith
    exact_mod_cast this

theorem TableWriter.appendAll_ok :
    ∀ (ts : List (List Val)) (sch : List (String × ColType)) (rs : List (List Val)),
      (∀ t ∈ ts, validRow sch t = true) →
      TableWriter.appendAll ⟨sch, rs, false⟩ ts = .ok ⟨sch, rs ++ ts, false⟩ := by
  intro ts
  induction ts with
  | nil => intro sch rs _; simp [TableWriter.appendAll]
  | cons t ts ih =>
    intro sch rs hv
    have ht : validRow sch t = true := hv t (List.mem_cons_self t ts)
    have happ : TableWriter.append ⟨sch, rs, false⟩ t = .ok ⟨sch, rs ++ [t], false⟩ := by
      simp [TableWriter.append, ht]
    have hrec := ih sch (rs ++ [t]) (fun u hu => hv u (List.mem_cons_of_mem t hu))
    rw [List.append_assoc] at hrec
    rw [TableWriter.appendAll, happ]
    exact hrec

theorem validRow_toVals (r : MyTableRow) :
    validRow myTableSchema r.toVals = true := rfl

theorem writeMyTable_ok (rows : List MyTableRow) :
    writeMyTable rows = .ok ⟨myTableSchema, rows.map MyTableRow.toVals⟩ := by
  have h : TableWriter.appendAll ⟨myTableSchema, [], false⟩ (rows.map MyTableRow.toVals)
      = .ok ⟨myTableSchema, [] ++ rows.map MyTableRow.toVals, false⟩ :=
    TableWriter.appendAll_ok _ _ _ (by
      intro t ht
      rcases List.mem_map.1 ht with ⟨r, _, rfl⟩
      exact validRow_toVals r)
  rw [writeMyTable]
  simp only [TableWriter.init]
  rw [h]
  simp [TableWriter.finalize]

theorem filteredViewAux_map_getD {α : Type} [Inhabited α] (P : α → Bool) :
    ∀ (xs : List α) (i : ℕ) (T : List α),
      (∀ k (h : k < xs.length), T.getD (i + k) default = xs.get ⟨k, h⟩) →
      (filteredViewAux P xs i).map (fun j => T.getD j default) = xs.filter P := by
  intro xs
  induction xs with
  | nil => intro i T _; simp [filteredViewAux]
  | cons x xs ih =>
    intro i T hT
    have hx : T.getD i default = x := by
      have h0 := hT 0 (by simp)
      simpa using h0
    have hT' : ∀ k (h : k < xs.length), T.getD ((i + 1) + k) default = xs.get ⟨k, h⟩ := by
      intro k h
      have hk := hT (k + 1) (by simpa using Nat.succ_lt_succ h)
      rw [show (i + 1) + k = i + (k + 1) by omega]
      simpa using hk
    cases hP : P x with
    | true =>
      rw [filteredViewAux_cons_pos xs i hP, List.map_cons, hx,
        List.filter_cons_of_pos hP, ih (i + 1) T hT']
    | false =>
      rw [filteredViewAux_cons_neg xs i hP,
        List.filter_cons_of_neg (by simp [hP]), ih (i + 1) T hT']

theorem filteredView_map_getD {α : Type} [Inhabited α] (P : α → Bool) (T : List α) :
    (filteredView P T).map (fun j => T.getD j default) = T.filter P := by
  rw [filteredView]
  refine filteredViewAux_map_getD P T 0 T ?_
  intro k h
  rw [Nat.zero_add, List.getD_eq_getElem T default h]
  rfl

theorem ProduceDerivedTable.process_ok (mD0 mD0bar : Cand → ℚ) :
    ∀ (cands : List Cand) (tracks : List Track),
      (∀ c ∈ cands, TESTBIT c.hfflag DecayType.D0ToPiK = true → c.index0 < tracks.length) →
      ProduceDerivedTable.process mD0 mD0bar cands tracks =
        .ok ((cands.filter (fun c => TESTBIT c.hfflag DecayType.D0ToPiK)).map
          (fun c => ⟨mD0 c, mD0bar c, c.pt, c.cpa,
            (tracks.getD c.index0 default).collisionId⟩)) := by
  intro cands
  induction cands with
  | nil => intro tracks _; simp [ProduceDerivedTable.process]
  | cons c rest ih =>
    intro tracks hb
    have hbrest : ∀ c' ∈ rest, TESTBIT c'.hfflag DecayType.D0ToPiK = true →
        c'.index0 < tracks.length :=
      fun c' hc' => hb c' (List.mem_cons_of_mem c hc')
    cases hsel : TESTBIT c.hfflag DecayType.D0ToPiK with
    | false =>
      simp only [ProduceDerivedTable.process]
      rw [if_neg (by simp [hsel]), List.filter_cons_of_neg (by simp [hsel])]
      exact ih tracks hbrest
    | true =>
      have h0 : c.index0 < tracks.length := hb c (List.mem_cons_self c rest) hsel
      have hres : c.index0_as tracks = .ok (tracks.get ⟨c.index0, h0⟩) := by
        rw [Cand.index0_as, List.get?_eq_get h0]
      have hfil : List.filter (fun x => TESTBIT x.hfflag DecayType.D0ToPiK) (c :: rest)
          = c :: List.filter (fun x => TESTBIT x.hfflag DecayType.D0ToPiK) rest :=
        List.filter_cons_of_pos hsel
      have hgetD : tracks.getD c.index0 default = tracks.get ⟨c.index0, h0⟩ := by
        rw [List.getD_eq_getElem tracks default h0]
        rfl
      simp only [ProduceDerivedTable.process]
      rw [if_pos hsel, hres, ih tracks hbrest]
      simp only [hfil, List.map_cons]
      rw [hgetD]

theorem ProduceDerivedTable.process_error_dangling (mD0 mD0bar : Cand → ℚ) :
    ∀ (cands : List Cand) (tracks : List Track),
      (∃ c ∈ cands, TESTBIT c.hfflag DecayType.D0ToPiK = true ∧
        tracks.length ≤ c.index0) →
      ProduceDerivedTable.process mD0 mD0bar cands tracks =
        .error .danglingReference := by
  intro cands
  induction cands with
  | nil => rintro tracks ⟨c, hc, _⟩; exact absurd hc (List.not_mem_nil c)
  | cons c rest ih =>
    rintro tracks ⟨c', hc', hsel', hlen'⟩
    rcases List.mem_cons.1 hc' with rfl | hrest
    · simp only [ProduceDerivedTable.process]
      rw [if_pos hsel']
      have hdang : c'.index0_as tracks = .error .danglingReference := by
        rw [Cand.index0_as, List.get?_eq_none.2 hlen']
      rw [hdang]
    · cases hsel : TESTBIT c.hfflag DecayType.D0ToPiK with
      | false =>
        simp only [ProduceDerivedTable.process]
        rw [if_neg (by simp [hsel])]
        exact ih tracks ⟨c', hrest, hsel', hlen'⟩
      | true =>
        simp only [ProduceDerivedTable.process]
        rw [if_pos hsel]
        cases hres : c.index0_as tracks with
        | ok dau => rw [ih tracks ⟨c', hrest, hsel', hlen'⟩]
        | error e =>
          have he : e = .danglingReference := by
            rw [Cand.index0_as] at hres
            cases h : tracks.get? c.index0 with
            | some t => simp only [h] at hres; cases hres
            | none =>
              simp only [h] at hres
              injection hres with h'
              exact h'.symm
          rw [he]

theorem ProduceDerivedTable.process_ok_bounds (mD0 mD0bar : Cand → ℚ) :
    ∀ (cands : List Cand) (tracks : List Track) (rows : List MyTableRow),
      ProduceDerivedTable.process mD0 mD0bar cands tracks = .ok rows →
      ∀ c ∈ cands, TESTBIT c.hfflag DecayType.D0ToPiK = true →
        c.index0 < tracks.length := by
  intro cands
  induction cands with
  | nil => intro tracks rows _ c hc; exact absurd hc (List.not_mem_nil c)
  | cons c0 rest ih =>
    intro tracks rows hok c hc hsel
    rcases List.mem_cons.1 hc with rfl | hrest
    · simp only [ProduceDerivedTable.process] at hok
      rw [if_pos hsel] at hok
      by_contra hge
      push_neg at hge
      have hdang : c.index0_as tracks = .error .danglingReference := by
        rw [Cand.index0_as, List.get?_eq_none.2 hge]
      rw [hdang] at hok
      cases hok
    · cases hsel0 : TESTBIT c0.hfflag DecayType.D0ToPiK with
      | false =>
        simp only [ProduceDerivedTable.process] at hok
        rw [if_neg (by simp [hsel0])] at hok
        exact ih tracks rows hok c hrest hsel
      | true =>
        simp only [ProduceDerivedTable.process] at hok
        rw [if_pos hsel0] at hok
        cases hres : c0.index0_as tracks with
        | error e => rw [hres] at hok; cases hok
        | ok dau =>
          rw [hres] at hok
          cases hrec : ProduceDerivedTable.process mD0 mD0bar rest tracks with
          | error e => rw [hrec] at hok; cases hok
          | ok rows' => exact ih tracks rows' hrec c hrest hsel

/-- Concrete evaluation of the pt filter on the scenario row with pT = 1:
sqrt(1) = 1 is not above the threshold 4. -/
theorem ptFilter_scenario_lo :
    ProduceDerivedTableFilter.ptFilter ⟨1, 1, 0, 1, 1, 0⟩ = false := by
  show decide ((16 : ℚ) < 1 * 1 + 0 * 0) = false
  norm_num

/-- Concrete evaluation of the pt filter on the scenario row with pT = 5. -/
theorem ptFilter_scenario_mid :
    ProduceDerivedTableFilter.ptFilter ⟨1, 5, 0, 5, 1, 0⟩ = true := by
  show decide ((16 : ℚ) < 5 * 5 + 0 * 0) = true
  norm_num

/-- Concrete evaluation of the pt filter on the scenario row with pT = 9. -/
theorem ptFilter_scenario_hi :
    ProduceDerivedTableFilter.ptFilter ⟨1, 9, 0, 9, 1, 0⟩ = true := by
  show decide ((16 : ℚ) < 9 * 9 + 0 * 0) = true
  norm_num

/-- The Filtered View of the scenario candidates under the pt filter is the
position list [1, 2]: exactly the rows with pT = 5 and pT = 9. -/
theorem filteredView_scenario :
    filteredView ProduceDerivedTableFilter.ptFilter scenarioCands = [1, 2] := by
  rw [scenarioCands, filteredView,
    filteredViewAux_cons_neg _ 0 ptFilter_scenario_lo,
    filteredViewAux_cons_pos _ 1 ptFilter_scenario_mid,
    filteredViewAux_cons_pos _ 2 ptFilter_scenario_hi]
  rfl

/-- C1: for every pipeline configuration, a stage declaring an output Table
identity already registered by an earlier stage makes building the stage graph
fail with `DuplicateTableError`, and the pipeline run aborts at build time —
no stage executes (the run yields the error, not an execution list). -/
theorem c1_duplicate_output_rejected_at_build
    (ss : List Stage) (t : String) (i j : ℕ) (hj : j < ss.length) (hij : i < j)
    (hi : (ss.get ⟨i, hij.trans hj⟩).output = some t)
    (hjo : (ss.get ⟨j, hj⟩).output = some t) :
    buildStageGraph ss = .error .duplicateTableError ∧
      runPipeline ss = .error .duplicateTableError := by
  have herr := registerOutputs_error_of_dup ss [] i j hj hij t hi hjo
  have hb : buildStageGraph ss = .error .duplicateTableError := by
    rw [buildStageGraph, herr]
  exact ⟨hb, by rw [runPipeline, hb]⟩

/-- C1 witness: the source workflow registers `ProduceDerivedTable` (index 1)
and `ProduceDerivedTableFilter` (index 2), which both declare output
`MyTable`; the configuration is rejected at build time. -/
theorem c1_witness :
    buildStageGraph defineDataProcessing = .error .duplicateTableError ∧
      runPipeline defineDataProcessing = .error .duplicateTableError :=
  c1_duplicate_output_rejected_at_build defineDataProcessing "MyTable" 1 2
    (by decide) (by decide) (by decide) (by decide)

/-- C2: a Transform downstream of a Filter is never invoked on a row position
the Filter excludes: an excluded position is absent from the Filtered View,
the rows handed to the transform are exactly the rows passing the filter, and
in the concrete scenario (pT = {1, 5, 9}, filter pT > 4) the written derived
table has rowCount 2. -/
theorem c2_filter_precedes_transform :
    (∀ (cands : List Cand) (i : ℕ) (h : i < cands.length),
        ProduceDerivedTableFilter.ptFilter (cands.get ⟨i, h⟩) = false →
        i ∉ filteredView ProduceDerivedTableFilter.ptFilter cands) ∧
      (∀ cands : List Cand,
        (filteredView ProduceDerivedTableFilter.ptFilter cands).map
            (fun j => cands.getD j default) =
          cands.filter ProduceDerivedTableFilter.ptFilter) ∧
      (ProduceDerivedTableFilter.run scenarioMass scenarioMass scenarioCands
          scenarioTracks).map Table.rowCount = .ok 2 := by
  refine ⟨?_, fun cands => filteredView_map_getD _ cands, ?_⟩
  · intro cands i h hfalse hmem
    rcases (mem_filteredViewAux _ cands 0 i).1 hmem with ⟨k, hk, hik, hPk⟩
    have hki : k = i := by omega
    subst hki
    have h2 : ProduceDerivedTableFilter.ptFilter (cands.get ⟨k, h⟩) = true := hPk
    rw [h2] at hfalse
    exact Bool.noConfusion hfalse
  · have hmap : (filteredView ProduceDerivedTableFilter.ptFilter scenarioCands).map
        (fun j => scenarioCands.getD j default)
        = [⟨1, 5, 0, 5, 1, 0⟩, ⟨1, 9, 0, 9, 1, 0⟩] := by
      rw [filteredView_scenario]
      rfl
    rw [ProduceDerivedTableFilter.run, ProduceDerivedTableFilter.process, hmap]
    rfl

/-- C2 witness: in the concrete scenario, row position 0 (pT = 1, which fails
the filter) is not in the Filtered View. -/
theorem c2_witness :
    0 ∉ filteredView ProduceDerivedTableFilter.ptFilter scenarioCands :=
  c2_filter_precedes_transform.1 scenarioCands 0 (by decide) ptFilter_scenario_lo

/-- C3: for every Table and row predicate, the Filtered View contains exactly
the row positions whose row satisfies the predicate, in strictly increasing
order, and its length is at most the Table's row count. -/
theorem c3_filtered_view_exact {α : Type} (T : List α) (P : α → Bool) :
    (∀ i, i ∈ filteredView P T ↔ ∃ h : i < T.length, P (T.get ⟨i, h⟩) = true) ∧
      (filteredView P T).Pairwise (· < ·) ∧
      (filteredView P T).length ≤ T.length := by
  refine ⟨fun i => ?_, filteredViewAux_pairwise P T 0, filteredViewAux_length_le P T 0⟩
  rw [filteredView, mem_filteredViewAux]
  simp only [Nat.zero_add]
  constructor
  · rintro ⟨k, hk, rfl, hPk⟩
    exact ⟨hk, hPk⟩
  · rintro ⟨hle, hP⟩
    exact ⟨i, hle, rfl, hP⟩

/-- C3 witness: over the scenario candidates and the pt filter, position 1 is
in the Filtered View because its row passes the predicate. -/
theorem c3_witness :
    1 ∈ filteredView ProduceDerivedTableFilter.ptFilter scenarioCands :=
  ((c3_filtered_view_exact scenarioCands ProduceDerivedTableFilter.ptFilter).1 1).2
    ⟨by decide, ptFilter_scenario_mid⟩

/-- C4: for every Schema and sequence of appends of tuples valid against it, a
fresh Writer accepts all appends, `finalize` yields the Table whose rows equal
the appended tuples in append order, and the row count equals the number of
appends. -/
theorem c4_writer_finalize_exact (S : List (String × ColType))
    (ts : List (List Val)) (hv : ∀ t ∈ ts, validRow S t = true) :
    TableWriter.appendAll (TableWriter.init S) ts = .ok ⟨S, ts, false⟩ ∧
      TableWriter.finalize ⟨S, ts, false⟩ = .ok ⟨S, ts⟩ ∧
      Table.rowCount ⟨S, ts⟩ = ts.length := by
  refine ⟨?_, by simp [TableWriter.finalize], rfl⟩
  have h := TableWriter.appendAll_ok ts S [] hv
  simpa [TableWriter.init] using h

/-- C4 witness: appending two valid tuples to a fresh Writer for the `MyTable`
schema and finalizing yields exactly those rows, with row count 2. -/
theorem c4_witness :
    TableWriter.appendAll (TableWriter.init myTableSchema) sampleRows
        = .ok ⟨myTableSchema, sampleRows, false⟩ ∧
      TableWriter.finalize ⟨myTableSchema, sampleRows, false⟩
        = .ok ⟨myTableSchema, sampleRows⟩ ∧
      Table.rowCount ⟨myTableSchema, sampleRows⟩ = sampleRows.length :=
  c4_writer_finalize_exact myTableSchema sampleRows (by decide)

/-- C5: the table-producing stage is a deterministic, side-effect-free function
of its input tables: any two runs of `ProduceDerivedTable` over the same
immutable inputs produce identical derived Tables. -/
theorem c5_pipeline_deterministic (mD0 mD0bar : Cand → ℚ)
    (cands : List Cand) (tracks : List Track) (t₁ t₂ : Except PErr Table)
    (h₁ : ProduceDerivedTable.run mD0 mD0bar cands tracks = t₁)
    (h₂ : ProduceDerivedTable.run mD0 mD0bar cands tracks = t₂) :
    t₁ = t₂ := by
  rw [← h₁, ← h₂]

/-- C5 witness: two runs over the concrete scenario inputs agree. -/
theorem c5_witness :
    ProduceDerivedTable.run scenarioMass scenarioMass scenarioCands scenarioTracks
      = ProduceDerivedTable.run scenarioMass scenarioMass scenarioCands scenarioTracks :=
  c5_pipeline_deterministic scenarioMass scenarioMass scenarioCands scenarioTracks
    _ _ rfl rfl

/-- C6: index-column referential integrity: if any selected candidate stores a
row position outside the referenced track table, the transform fails with
`DanglingReference`; and whenever the transform succeeds, every selected
candidate's stored row position was a valid row position of the referenced
table — it never silently produces a wrong value. -/
theorem c6_index_referential_integrity (mD0 mD0bar : Cand → ℚ)
    (cands : List Cand) (tracks : List Track) :
    ((∃ c ∈ cands, TESTBIT c.hfflag DecayType.D0ToPiK = true ∧
        tracks.length ≤ c.index0) →
      ProduceDerivedTable.process mD0 mD0bar cands tracks
        = .error .danglingReference) ∧
    (∀ rows, ProduceDerivedTable.process mD0 mD0bar cands tracks = .ok rows →
      ∀ c ∈ cands, TESTBIT c.hfflag DecayType.D0ToPiK = true →
        c.index0 < tracks.length) :=
  ⟨ProduceDerivedTable.process_error_dangling mD0 mD0bar cands tracks,
   fun rows h => ProduceDerivedTable.process_ok_bounds mD0 mD0bar cands tracks rows h⟩

/-- C6 witness: a selected candidate with `index0 = 3` against a 1-row track
table makes the transform fail with `DanglingReference`. -/
theorem c6_witness :
    ProduceDerivedTable.process scenarioMass scenarioMass [danglingCand]
        scenarioTracks = .error .danglingReference :=
  (c6_index_referential_integrity scenarioMass scenarioMass [danglingCand]
      scenarioTracks).1 ⟨danglingCand, by decide, by decide, by decide⟩

/-- C7: appending a 3-element tuple to an open Writer built with a 5-column
Schema fails with `SchemaError` and leaves the Writer's accumulated rows (and
hence its row count) unchanged. -/
theorem c7_arity_mismatch_schema_error (S : List (String × ColType))
    (rs : List (List Val)) (t : List Val) (hS : S.length = 5)
    (ht : t.length = 3) :
    TableWriter.appendSt ⟨S, rs, false⟩ t = (⟨S, rs, false⟩, some .schemaError) ∧
      ((TableWriter.appendSt ⟨S, rs, false⟩ t).1).rows.length = rs.length := by
  have hvr : validRow S t = false := by
    rw [validRow]
    have hbeq : (t.length == S.length) = false := by
      rw [ht, hS]
      rfl
    rw [hbeq, Bool.false_and]
  have happ : TableWriter.append ⟨S, rs, false⟩ t = .error .schemaError := by
    simp [TableWriter.append, hvr]
  constructor
  · rw [TableWriter.appendSt, happ]
  · rw [TableWriter.appendSt, happ]

/-- C7 witness: a 3-float tuple appended to a fresh Writer for the 5-column
`MyTable` schema fails with `SchemaError`, keeping the row count at 0. -/
theorem c7_witness :
    TableWriter.appendSt ⟨myTableSchema, [], false⟩ [.vFloat 1, .vFloat 2, .vFloat 3]
        = (⟨myTableSchema, [], false⟩, some .schemaError) ∧
      ((TableWriter.appendSt ⟨myTableSchema, [], false⟩
          [.vFloat 1, .vFloat 2, .vFloat 3]).1).rows.length = 0 :=
  c7_arity_mismatch_schema_error myTableSchema [] [.vFloat 1, .vFloat 2, .vFloat 3]
    (by decide) (by decide)

/-- C8 counterexample: the source workflow — the one that registers the
terminal stage `ReadDerivedTable` twice — does NOT build without error: it is
rejected with `DuplicateTableError`, because it also registers two
table-producing stages that both declare output `MyTable`. -/
theorem c8_counterexample :
    buildStageGraph defineDataProcessing = .error .duplicateTableError := rfl

/-- C8 (amended): registering the same terminal (no-output) stage more than
once never causes rejection — any workflow whose table-producing output
identities are pairwise distinct builds without error, regardless of repeated
terminal stages; only duplicate table-producing outputs are rejected. -/
theorem c8_terminal_duplicates_build (ss : List Stage)
    (hnd : (ss.filterMap Stage.output).Nodup) :
    buildStageGraph ss = .ok ss := by
  rcases registerOutputs_ok_of_nodup ss [] hnd (by simp) with ⟨l, hl⟩
  rw [buildStageGraph, hl]

/-- C8 witness: a workflow registering `ReadDerivedTable` twice next to a
single `MyTable` producer builds without error. -/
theorem c8_witness :
    buildStageGraph [ReadHFCandidates.stage, ProduceDerivedTable.stage,
        ReadDerivedTable.stage, ReadDerivedTable.stage]
      = .ok [ReadHFCandidates.stage, ProduceDerivedTable.stage,
        ReadDerivedTable.stage, ReadDerivedTable.stage] :=
  c8_terminal_duplicates_build
    [ReadHFCandidates.stage, ProduceDerivedTable.stage,
     ReadDerivedTable.stage, ReadDerivedTable.stage] (by decide)

/-- C9: `vzeroexample::process` fills nothing when the collision fails
`sel8()`, and when `sel8()` holds it fills `hVertexZ` exactly once with the
collision's `posZ` and `hMassK0Short` exactly once per V0 candidate, in
order. -/
theorem c9_vzero_fills (collision : Collision) (V0s : List V0Data) :
    (collision.sel8 = false → vzeroexample.process collision V0s = []) ∧
      (collision.sel8 = true →
        vzeroexample.process collision V0s =
          FillEvt.hVertexZ collision.posZ ::
            V0s.map (fun v => FillEvt.hMassK0Short v.mK0Short)) := by
  constructor
  · intro h; simp [vzeroexample.process, h]
  · intro h; simp [vzeroexample.process, h]

/-- C9 witness: a rejected collision fills nothing; an accepted one fills
`hVertexZ` once and `hMassK0Short` once for its single V0. -/
theorem c9_witness :
    vzeroexample.process ⟨false, 3⟩ [⟨1/2⟩] = [] ∧
      vzeroexample.process ⟨true, 3⟩ [⟨1/2⟩]
        = [FillEvt.hVertexZ 3, FillEvt.hMassK0Short (1/2)] :=
  ⟨(c9_vzero_fills ⟨false, 3⟩ [⟨1/2⟩]).1 rfl,
   (c9_vzero_fills ⟨true, 3⟩ [⟨1/2⟩]).2 rfl⟩

/-- C10: over inputs whose selected candidates have in-bounds track indices
(the invariant raw Tables guarantee), `ProduceDerivedTable` produces exactly
one row per candidate with the D0ToPiK bit set, in input order, with values
(InvMassD0(cand), InvMassD0bar(cand), cand.pt(), cand.cpa(), collisionId of
the `index0` daughter track); unselected candidates contribute no row. -/
theorem c10_produce_rows_exact (mD0 mD0bar : Cand → ℚ)
    (cands : List Cand) (tracks : List Track)
    (hb : ∀ c ∈ cands, TESTBIT c.hfflag DecayType.D0ToPiK = true →
      c.index0 < tracks.length) :
    ProduceDerivedTable.process mD0 mD0bar cands tracks =
      .ok ((cands.filter (fun c => TESTBIT c.hfflag DecayType.D0ToPiK)).map
        (fun c => ⟨mD0 c, mD0bar c, c.pt, c.cpa,
          (tracks.getD c.index0 default).collisionId⟩)) :=
  ProduceDerivedTable.process_ok mD0 mD0bar cands tracks hb

/-- C10 witness: on the three scenario candidates (all selected, all
referencing track 0 with collision id 7) the produced rows are exactly the
three expected tuples in input order. -/
theorem c10_witness :
    ProduceDerivedTable.process scenarioMass scenarioMass scenarioCands
        scenarioTracks
      = .ok [⟨1, 1, 1, 1, 7⟩, ⟨5, 5, 5, 1, 7⟩, ⟨9, 9, 9, 1, 7⟩] := by
  rw [c10_produce_rows_exact scenarioMass scenarioMass scenarioCands
    scenarioTracks (by decide)]
  rfl
